import Mathlib

/-!
Verification development for the lumina_iq retrieval engine.

Shallow embedding of the Python services in `backend/services/`:
text is modelled as `List Char` (one element per code point), Python slices
and `str.rfind`/`str.strip` are modelled directly, and fractional scores
or confidences are modelled as exact scaled naturals (hundredths for
confidences and densities, thousandths for similarity scores); the scaled
representation is order-isomorphic to the float computation away from
rounding boundaries, and every concrete input used below is far from such
a boundary.  Loops whose termination is in question carry explicit fuel
and return `Option`, with `none` meaning the loop has not finished.
-/

namespace LuminaIQ

/-
Character helpers: ASCII model of the Python predicates used by the
services (`str.strip` whitespace set, `str.lower`, regex `\w` and `\d`).
-/

def isPySpace (c : Char) : Bool :=
  c = ' ' || c = '\t' || c = '\n' || c = '\r' || c = '\x0b' || c = '\x0c'

/-- Model of Python `str.strip()` (ASCII whitespace). -/
def pyStrip (l : List Char) : List Char :=
  ((l.dropWhile isPySpace).reverse.dropWhile isPySpace).reverse

/-- Model of the Python slice `text[s:e]` for natural indices. -/
def pySlice (l : List Char) (s e : Nat) : List Char :=
  (l.drop s).take (e - s)

/-- Whether `sub` occurs in `l` starting exactly at index `i`. -/
def matchAt (l sub : List Char) (i : Nat) : Bool :=
  (l.drop i).take sub.length == sub

/-- Scan downward from `i` for the largest start position `≥ s` where `sub`
occurs; helper for `rfind`. -/
def rfindLoop (l sub : List Char) (s : Nat) : Nat → Option Nat
  | 0 => if s = 0 && matchAt l sub 0 then some 0 else none
  | i + 1 =>
    if decide (s ≤ i + 1) && matchAt l sub (i + 1) then some (i + 1)
    else rfindLoop l sub s i

/-- Model of Python `text.rfind(sub, s, e)`: the largest index `p` with
`s ≤ p` and `sub` fully contained in `text[s:e]`, `none` for `-1`. -/
def rfind (l sub : List Char) (s e : Nat) : Option Nat :=
  if sub.length ≤ min e l.length then rfindLoop l sub s (min e l.length - sub.length)
  else none

/-- Model of `-1`-vs-position comparison `pos > best_break` where
`best_break` starts at `-1` (`none`). -/
def optLtNat : Option Nat → Nat → Bool
  | none, _ => true
  | some b, p => decide (b < p)

/-- The sentence-break scan of `ChunkingService.chunk_text` (lines 52-57):
for each break character keep the largest found position that is `> start`. -/
def bestBreakAux (l : List Char) (s e : Nat) : List Char → Option Nat → Option Nat
  | [], best => best
  | c :: cs, best =>
    bestBreakAux l s e cs
      (match rfind l [c] s e with
      | some p => if decide (s < p) && optLtNat best p then some p else best
      | none => best)

def sentenceBreakChars : List Char := ['.', '!', '?', '\n']

/-- The end-boundary computation of one iteration of
`ChunkingService.chunk_text` (source lines 41-60): start from
`start + chunk_size`; if that does not reach the end of the text, shrink to
the last paragraph break `"\n\n"` strictly past `start` if any, else to the
last sentence-break character strictly past `start` if any. -/
def computeEnd (l : List Char) (cs start : Nat) : Nat :=
  if start + cs < l.length then
    match rfind l ['\n', '\n'] start (start + cs) with
    | some p =>
      if start < p then p + 2
      else
        match bestBreakAux l start (start + cs) sentenceBreakChars none with
        | some b => b + 1
        | none => start + cs
    | none =>
      match bestBreakAux l start (start + cs) sentenceBreakChars none with
      | some b => b + 1
      | none => start + cs
  else start + cs

/-- The `while start < len(text)` loop of `ChunkingService.chunk_text`
(source lines 40-77), with explicit fuel; `none` means the fuel ran out
before the loop finished.  The final two clamps of the source
(`if start < 0: start = 0` and `if start >= prev_end: start = prev_end`)
are the truncated subtraction `e - co` and the `if e ≤ e - co` test. -/
def chunkLoop (l : List Char) (cs co : Nat) : Nat → Nat → List (List Char) → Option (List (List Char))
  | 0, _, _ => none
  | fuel + 1, start, acc =>
    if start < l.length then
      chunkLoop l cs co fuel
        (if computeEnd l cs start ≤ computeEnd l cs start - co then computeEnd l cs start
         else computeEnd l cs start - co)
        (if (pyStrip (pySlice l start (computeEnd l cs start))).isEmpty then acc
         else acc ++ [pyStrip (pySlice l start (computeEnd l cs start))])
    else some acc

/-- Model of `ChunkingService.chunk_text` (source lines 26-83).  The guard
`if not text or len(text.strip()) == 0` is equivalent to the strip being
empty. -/
def chunk_text (fuel : Nat) (text : List Char) (chunk_size chunk_overlap : Nat) :
    Option (List (List Char)) :=
  if (pyStrip text).isEmpty then some []
  else if (pyStrip text).length ≤ chunk_size then some [pyStrip text]
  else chunkLoop (pyStrip text) chunk_size chunk_overlap fuel 0 []

/-- The input `"a." ++ "b" * 20` on which the chunking loop never advances:
with `chunk_size = 10`, `chunk_overlap = 5` the sentence break sets
`end = 2`, and `start = end - overlap` is clamped to `0` again. -/
def failC1text : List Char := 'a' :: '.' :: List.replicate 20 'b'

/-
Query classifier (`QueryClassifier.classify_query`, query_classifier.py
lines 49-122).  Confidences are modelled in hundredths: the source values
0.5, 0.6 + 0.15*matches, 0.95, 0.90 become 50, 60 + 15*matches, 95, 90.
-/

def toLowerChar (c : Char) : Char :=
  if 'A' ≤ c ∧ c ≤ 'Z' then Char.ofNat (c.toNat + 32) else c

/-- Model of `query.lower()` over ASCII text. -/
def lowerList (s : String) : List Char := s.toList.map toLowerChar

/-- Model of regex `\w` (ASCII range). -/
def isWordChar (c : Char) : Bool := c.isAlphanum || c = '_'

/-- Scan for an occurrence of `nd` at any position of the second list. -/
def containsAux (nd : List Char) : List Char → Bool
  | [] => nd.isEmpty
  | c :: rest => nd.isPrefixOf (c :: rest) || containsAux nd rest

/-- Model of Python `needle in hay` for strings. -/
def containsSub (hay : List Char) (needle : String) : Bool :=
  containsAux needle.toList hay

def qaGenerationKeywords : List String :=
  ["generate questions", "create questions", "make questions",
   "generate quiz", "create quiz", "make quiz",
   "generate q&a", "create q&a", "question generation",
   "generate mcq", "create mcq", "multiple choice",
   "generate test", "create test"]

def evaluationKeywords : List String :=
  ["evaluate", "check answer", "grade", "assess",
   "is this correct", "is this right", "verify answer",
   "check my answer", "correct answer", "validate",
   "score", "marks", "feedback on"]

def notesKeywords : List String :=
  ["generate notes", "create notes", "make notes",
   "summarize", "summary", "overview", "outline",
   "key points", "main points", "important points",
   "explain chapter", "explain section", "notes on",
   "give me notes"]

def chatKeywords : List String :=
  ["what is", "explain", "how does", "why",
   "tell me about", "describe", "define",
   "can you explain", "help me understand"]

inductive UseCase where
  | qa_generation
  | evaluation
  | notes
  | chat
deriving DecidableEq

structure Classification where
  use_case : UseCase
  confidence : Nat
  matched_keywords : List String
deriving DecidableEq

/-- A regex word boundary directly after a word character: holds at end of
string or before a non-word character. -/
def boundaryOkAfter : List Char → Bool
  | [] => true
  | c :: _ => !isWordChar c

/-- A regex word boundary directly before a word character, given the
preceding character (`none` at start of string). -/
def boundaryBeforeOk : Option Char → Bool
  | none => true
  | some p => !isWordChar p

/-- The `questions?\b` tail of the regex `\b\d+\s+questions?\b`, with the
backtracking alternation of the optional `s`. -/
def qaQuestionWord (r2 : List Char) : Bool :=
  if "question".toList.isPrefixOf r2 then
    match r2.drop 8 with
    | 's' :: r4 => boundaryOkAfter r4 || boundaryOkAfter ('s' :: r4)
    | r3 => boundaryOkAfter r3
  else false

/-- Whether `re.search` of the pattern `\b\d+\s+questions?\b` matches at the head of
`l` (the boundary before the digits is checked by the caller). -/
def qaNumQuestionsAt (l : List Char) : Bool :=
  let ds := l.takeWhile Char.isDigit
  if ds.isEmpty then false
  else
    let r1 := l.drop ds.length
    let ws := r1.takeWhile isPySpace
    if ws.isEmpty then false else qaQuestionWord (r1.drop ws.length)

/-- Left-to-right scan of `re.search` for `\b\d+\s+questions?\b`. -/
def qaRegexSearch : Option Char → List Char → Bool
  | _, [] => false
  | prev, c :: rest =>
    (boundaryBeforeOk prev && Char.isDigit c && qaNumQuestionsAt (c :: rest)) ||
      qaRegexSearch (some c) rest

def qaStrongRegex (l : List Char) : Bool := qaRegexSearch none l

/-- The regex `(my answer|the answer) (is|was)` is an alternation of four
literal strings, so `re.search` is exactly a substring test. -/
def evalStrongRegex (l : List Char) : Bool :=
  ["my answer is", "my answer was", "the answer is", "the answer was"].any
    (fun s => containsSub l s)

/-- The regex `(notes? (on|for|about)|summarize (chapter|section))` is an
alternation of eight literal strings, so `re.search` is exactly a substring
test. -/
def notesStrongRegex (l : List Char) : Bool :=
  ["note on", "notes on", "note for", "notes for", "note about",
   "notes about", "summarize chapter", "summarize section"].any
    (fun s => containsSub l s)

def keywordMatches (ql : List Char) (kws : List String) : List String :=
  kws.filter (fun k => containsSub ql k)

/-- Model of `QueryClassifier.classify_query`.  The keyword pass scores the
four use cases; `max(scores, key=scores.get)` picks the first maximal score
in dict insertion order (qa_generation, evaluation, notes, chat); the three
strong regex overrides then replace use case and confidence in source
order. -/
def classify_query (query : String) : Classification :=
  let ql := lowerList query
  let mqa := keywordMatches ql qaGenerationKeywords
  let mev := keywordMatches ql evaluationKeywords
  let mno := keywordMatches ql notesKeywords
  let mch := keywordMatches ql chatKeywords
  let maxScore := max (max mqa.length mev.length) (max mno.length mch.length)
  let base : Classification :=
    if maxScore = 0 then ⟨UseCase.chat, 50, []⟩
    else if mqa.length = maxScore then
      ⟨UseCase.qa_generation, min (60 + 15 * mqa.length) 100, mqa⟩
    else if mev.length = maxScore then
      ⟨UseCase.evaluation, min (60 + 15 * mev.length) 100, mev⟩
    else if mno.length = maxScore then
      ⟨UseCase.notes, min (60 + 15 * mno.length) 100, mno⟩
    else ⟨UseCase.chat, min (60 + 15 * mch.length) 100, mch⟩
  let r1 :=
    if qaStrongRegex ql then
      { base with use_case := UseCase.qa_generation, confidence := 95 }
    else base
  let r2 :=
    if evalStrongRegex ql then
      { r1 with use_case := UseCase.evaluation, confidence := 90 }
    else r1
  if notesStrongRegex ql then
    { r2 with use_case := UseCase.notes, confidence := 90 }
  else r2

/-
Chapter/section propagation
(`DocumentMetadataExtractor.propagate_chapter_metadata`,
document_metadata_extractor.py lines 274-309).
-/

structure ChunkMeta where
  chapter_number : Option Int
  chapter_title : Option String
  section_number : Option String
  section_title : Option String
deriving DecidableEq

def defaultMeta : ChunkMeta := ⟨none, none, none, none⟩

/-- Python truthiness of an optional int (`None` and `0` are falsy), as
tested by `if metadata.get("chapter_number"):`. -/
def truthyInt : Option Int → Bool
  | none => false
  | some n => decide (n ≠ 0)

/-- Python truthiness of an optional string (`None` and `""` are falsy). -/
def truthyStr : Option String → Bool
  | none => false
  | some s => decide (s ≠ "")

/-- The chapter half of one loop iteration of `propagate_chapter_metadata`
(source lines 291-298): a chunk with a truthy chapter keeps it, otherwise a
truthy current chapter is inherited. -/
def chapterUpdate (curC : Option Int) (curCT : Option String) (m : ChunkMeta) : ChunkMeta :=
  if truthyInt m.chapter_number then m
  else if truthyInt curC then { m with chapter_number := curC, chapter_title := curCT }
  else m

/-- The section half of one loop iteration of `propagate_chapter_metadata`
(source lines 300-307), applied to the chunk after the chapter half. -/
def sectionUpdate (curS curST : Option String) (m1 : ChunkMeta) : ChunkMeta :=
  if truthyStr m1.section_number then m1
  else if truthyStr curS then { m1 with section_number := curS, section_title := curST }
  else m1

def nextChapNum (curC : Option Int) (m : ChunkMeta) : Option Int :=
  if truthyInt m.chapter_number then m.chapter_number else curC

def nextChapTitle (curCT : Option String) (m : ChunkMeta) : Option String :=
  if truthyInt m.chapter_number then m.chapter_title else curCT

def nextSecNum (curS : Option String) (m1 : ChunkMeta) : Option String :=
  if truthyStr m1.section_number then m1.section_number else curS

def nextSecTitle (curST : Option String) (m1 : ChunkMeta) : Option String :=
  if truthyStr m1.section_number then m1.section_title else curST

/-- The left-to-right pass of `propagate_chapter_metadata`, carrying the
current chapter number/title and section number/title. -/
def propagateAux : Option Int → Option String → Option String → Option String →
    List ChunkMeta → List ChunkMeta
  | _, _, _, _, [] => []
  | curC, curCT, curS, curST, m :: rest =>
    sectionUpdate curS curST (chapterUpdate curC curCT m) ::
      propagateAux (nextChapNum curC m) (nextChapTitle curCT m)
        (nextSecNum curS (chapterUpdate curC curCT m))
        (nextSecTitle curST (chapterUpdate curC curCT m)) rest

def propagate_chapter_metadata (l : List ChunkMeta) : List ChunkMeta :=
  propagateAux none none none none l

/-- The chapter number recorded at index `i` of a metadata list. -/
def chapAt (l : List ChunkMeta) (i : Nat) : Option Int :=
  (l.getD i defaultMeta).chapter_number

/-
Reranker / diversity sampler (`AdvancedRAGService.calculate_information_density`
and `AdvancedRAGService.rerank_chunks`, advanced_rag_service.py lines
89-203).  Similarity scores are modelled in thousandths, the density score
in hundredths; the composite score
`similarity * 0.5 + (density / 5.0) * 0.5` is modelled scaled by 2000, i.e.
`score_thousandths + 2 * density_hundredths`, which is order-isomorphic to
the float blend.
-/

def isSentencePunct (c : Char) : Bool := c = '.' || c = '!' || c = '?'

/-- Count of maximal runs of `[.!?]` characters, the number of matches of
`re.findall` of `[.!?]+` over the text. -/
def countRunsAux : Bool → List Char → Nat
  | _, [] => 0
  | inRun, c :: rest =>
    if isSentencePunct c then (if inRun then 0 else 1) + countRunsAux true rest
    else countRunsAux false rest

def countSentenceRuns (l : List Char) : Nat := countRunsAux false l

/-- Length consumed by a match of `\d+\.?\d*\b` starting at the head of
`l` (which must start with a digit), with the backtracking behaviour of
the Python regex engine: prefer all digits plus dot plus all fractional
digits, fall back to dropping the fractional digits and then the dot. -/
def numMatchLen (l : List Char) : Option Nat :=
  if (l.takeWhile Char.isDigit).length = 0 then none
  else
    match l.drop (l.takeWhile Char.isDigit).length with
    | '.' :: r2 =>
      if 0 < (r2.takeWhile Char.isDigit).length then
        if boundaryOkAfter (r2.drop (r2.takeWhile Char.isDigit).length) then
          some ((l.takeWhile Char.isDigit).length + 1 + (r2.takeWhile Char.isDigit).length)
        else some ((l.takeWhile Char.isDigit).length + 1)
      else
        match r2 with
        | x :: _ =>
          if isWordChar x then some ((l.takeWhile Char.isDigit).length + 1)
          else some (l.takeWhile Char.isDigit).length
        | [] => some (l.takeWhile Char.isDigit).length
    | r1 =>
      if boundaryOkAfter r1 then some (l.takeWhile Char.isDigit).length else none

/-- Fuelled scan of `re.findall` of `\b\d+\.?\d*\b` counting
non-overlapping matches left to right; the fuel is at least the input
length plus one, so it never runs out. -/
def countNumAux : Nat → Option Char → List Char → Nat
  | 0, _, _ => 0
  | _ + 1, _, [] => 0
  | fuel + 1, prev, c :: rest =>
    if boundaryBeforeOk prev && Char.isDigit c then
      match numMatchLen (c :: rest) with
      | some n => 1 + countNumAux fuel (some ((c :: rest).getD (n - 1) c)) ((c :: rest).drop n)
      | none => countNumAux fuel (some c) rest
    else countNumAux fuel (some c) rest

def countNumberMatches (l : List Char) : Nat := countNumAux (l.length + 1) none l

def keyPhrases : List String :=
  ["because", "therefore", "thus", "however", "important",
   "significant", "key", "main", "primary", "essential",
   "for example", "such as", "including", "defined as",
   "means that", "refers to", "results in", "causes"]

def definitionMarkers : List String :=
  ["is defined as", "refers to", "means", "is a", "are"]

/-- Model of `calculate_information_density`, scaled by 100: the source
adds `min(numbers*0.1, 1.0) + min(phrases*0.15, 1.5) +
min(sentences*0.1, 1.0) + length bonus (1.0 / 0.5 / 0) +
0.5 if a definition marker occurs`. -/
def densityScaled (text : List Char) : Nat :=
  min (countNumberMatches text * 10) 100 +
    min ((keyPhrases.filter (fun p => containsSub (text.map toLowerChar) p)).length * 15) 150 +
    min (countSentenceRuns text * 10) 100 +
    (if 200 ≤ text.length ∧ text.length ≤ 800 then 100
     else if (100 ≤ text.length ∧ text.length < 200) ∨
         (800 < text.length ∧ text.length ≤ 1200) then 50
     else 0) +
    (if definitionMarkers.any (fun p => containsSub (text.map toLowerChar) p) then 50 else 0)

/-- A candidate chunk as fed to `rerank_chunks`: its text and its optional
vector-similarity score (thousandths); `chunk.get("score", 0.5)` defaults
to 500. -/
structure RChunk where
  text : List Char
  score : Option Nat
deriving DecidableEq

/-- A chunk after composite scoring (`scored_chunks` entries). -/
structure SChunk where
  text : List Char
  score : Option Nat
  composite_score : Nat
  density_score : Nat
deriving DecidableEq

def scoreChunk (c : RChunk) : SChunk :=
  { text := c.text, score := c.score,
    composite_score := c.score.getD 500 + 2 * densityScaled c.text,
    density_score := densityScaled c.text }

/-- Descending order on composite scores; `sort(key=..., reverse=True)` is
stable, and so is `List.insertionSort` with this relation. -/
def rDesc (a b : SChunk) : Prop := b.composite_score ≤ a.composite_score

instance : DecidableRel rDesc :=
  fun a b => inferInstanceAs (Decidable (b.composite_score ≤ a.composite_score))

instance : IsTotal SChunk rDesc :=
  ⟨fun a b => le_total b.composite_score a.composite_score⟩

instance : IsTrans SChunk rDesc :=
  ⟨fun _ _ _ h1 h2 => le_trans h2 h1⟩

def sortScored (l : List SChunk) : List SChunk := List.insertionSort rDesc l

/-- Model of Python `str.split()` (split on whitespace runs, no empties). -/
def splitWSAux : List Char → List Char → List (List Char)
  | cur, [] => if cur.isEmpty then [] else [cur.reverse]
  | cur, c :: rest =>
    if isPySpace c then
      if cur.isEmpty then splitWSAux [] rest else cur.reverse :: splitWSAux [] rest
    else splitWSAux (c :: cur) rest

def splitWS (l : List Char) : List (List Char) := splitWSAux [] l

def first200Lower (t : List Char) : List Char := (t.map toLowerChar).take 200

/-- Cardinality of `set(a.split()) & set(b.split())`. -/
def wordOverlapCount (a b : List Char) : Nat :=
  ((splitWS a).dedup.filter (fun w => (splitWS b).contains w)).length

/-- The diversity rejection test of `rerank_chunks` (lines 191-197):
the intersection of the first-200-character word sets exceeds 70% of the
word list length of the candidate (`overlap > len(...) * 0.7`, scaled by 10). -/
def overlapTooHigh (cand sel : SChunk) : Bool :=
  decide (10 * wordOverlapCount (first200Lower cand.text) (first200Lower sel.text) >
    7 * (splitWS (first200Lower cand.text)).length)

/-- `diverse_chunks[-3:]`. -/
def last3 (l : List SChunk) : List SChunk := l.drop (l.length - 3)

def isDiverse (cand : SChunk) (acc : List SChunk) : Bool :=
  (last3 acc).all (fun s => !overlapTooHigh cand s)

/-- The greedy diversity selection loop of `rerank_chunks`
(lines 182-200): stop at `top_k` accepted, reject candidates overlapping
one of the last 3 accepted. -/
def selectDiverse (top_k : Nat) : List SChunk → List SChunk → List SChunk
  | acc, [] => acc
  | acc, c :: rest =>
    if top_k ≤ acc.length then acc
    else if isDiverse c acc then selectDiverse top_k (acc ++ [c]) rest
    else selectDiverse top_k acc rest

/-- Model of `AdvancedRAGService.rerank_chunks`. -/
def rerank_chunks (chunks : List RChunk) (top_k : Nat) : List SChunk :=
  selectDiverse top_k [] (sortScored (chunks.map scoreChunk))

/-
Concrete chunks for the C8 counterexample: two near-duplicates separated
by three mutually unrelated chunks in composite order.
-/

def cA : RChunk := ⟨"alpha beta gamma delta epsilon".toList, some 900⟩

def cB1 : RChunk := ⟨"one fish two fish red fish blue fish".toList, some 800⟩

def cB2 : RChunk := ⟨"lorem ipsum dolor sit amet consectetur".toList, some 700⟩

def cB3 : RChunk := ⟨"pack my box with jugs of liquid".toList, some 600⟩

def cA2 : RChunk := ⟨"alpha beta gamma delta zeta".toList, some 500⟩

/-
Vector store and retrieval strategies
(`retrieval_strategy_manager.py`, `qdrant_service.py`,
`qa_generation_service.py`).  The store is a list of indexed points; the
similarity of a point to the (already embedded) query is an arbitrary
ranking function `rank` (thousandths), so every theorem below holds for
every embedding.  Calls to the external embedding provider are modelled as
an injected `Except String Unit` outcome; a Python exception raised by a
collaborator corresponds to `Except.error`, and the `try/except` block of the strategy maps it to the error result, so the model is a total
function — the strategies never raise to their caller. -/

/-- One stored point, flattening the Qdrant payload: scope keys plus the
metadata fields the strategies read. -/
structure Point where
  text : String
  token : String
  filename : String
  chunk_index : Nat
  chapter_number : Option Int
  section_number : Option String
  sequential_id : Option Int
deriving DecidableEq

/-- A metadata filter entry `{"key": ..., "value": ...}` as built by the
strategies; the value is whatever `query_metadata[...]["value"]` holds. -/
inductive MetaFilter where
  | chapterEq (v : Option Int)
  | sectionEq (v : Option String)
deriving DecidableEq

def scopeMatch (p : Point) (token filename : String) : Bool :=
  p.token == token && p.filename == filename

/-- Qdrant `FieldCondition(key, match=MatchValue(value))`: equality on a
present payload field. -/
def matchesFilter (p : Point) : MetaFilter → Bool
  | .chapterEq v => v.isSome && p.chapter_number == v
  | .sectionEq v => v.isSome && p.section_number == v

/-- A retrieved chunk dictionary (`search_similar_chunks` /
`get_chunks_by_filter` result).  `is_expanded` and `retrieval_method`
model keys added later by `_expand_context` and `hyde_retrieval`; freshly
retrieved chunks carry `false` / `none` (key absent). -/
structure Retrieved where
  text : String
  score : Nat
  filename : String
  chunk_index : Nat
  chapter_number : Option Int
  section_number : Option String
  sequential_id : Option Int
  is_expanded : Bool
  retrieval_method : Option String
deriving DecidableEq

def toRetrieved (p : Point) (score : Nat) : Retrieved :=
  { text := p.text, score := score, filename := p.filename,
    chunk_index := p.chunk_index, chapter_number := p.chapter_number,
    section_number := p.section_number, sequential_id := p.sequential_id,
    is_expanded := false, retrieval_method := none }

def sortByRankDesc (rank : Point → Nat) (l : List Point) : List Point :=
  List.insertionSort (fun p q => rank q ≤ rank p) l

def eligiblePoints (store : List Point) (token filename : String)
    (filters : List MetaFilter) : List Point :=
  store.filter (fun p => scopeMatch p token filename && filters.all (matchesFilter p))

/-- Model of `qdrant_service.search_similar_chunks`: the scoped, filtered,
optionally thresholded points, best `limit` by similarity. -/
def searchSimilar (store : List Point) (rank : Point → Nat) (token filename : String)
    (limit : Nat) (threshold : Option Nat) (filters : List MetaFilter) : List Retrieved :=
  ((sortByRankDesc rank
    (match threshold with
     | none => eligiblePoints store token filename filters
     | some t => (eligiblePoints store token filename filters).filter
         (fun p => t ≤ rank p))).take limit).map (fun p => toRetrieved p (rank p))

/-- Model of `qdrant_service.get_chunks_by_filter` (lines 307-363): a
`scroll` with the scope and metadata filters and the given `limit`; every
returned chunk carries score 1.0 (here 1000). -/
def getChunksByFilter (store : List Point) (token filename : String)
    (filters : List MetaFilter) (limit : Nat) : List Retrieved :=
  ((eligiblePoints store token filename filters).take limit).map
    (fun p => toRetrieved p 1000)

/-- The chapter/section parts of `extract_all_metadata` that the
strategies read, confidences in hundredths. -/
structure QueryMeta where
  chapterValue : Option Int
  chapterConf : Nat
  sectionValue : Option String
  sectionConf : Nat

/-- The result dictionary of a retrieval strategy; the six keys every
branch sets.  Strategy-specific extras (`filtered_by_chapter`,
`num_core_chunks`, `num_sections`, `grouped_chunks`, `use_case`,
`query_metadata`, `requirements`) are independent additional keys no claim
depends on and are omitted. -/
structure RetrievalResult where
  status : String
  chunks : List Retrieved
  context : String
  num_chunks : Nat
  strategy : String
  message : String

def errorResult (strategy msg : String) : RetrievalResult :=
  { status := "error", chunks := [], context := "", num_chunks := 0,
    strategy := strategy, message := msg }

/-- `x.get("metadata", {}).get("sequential_id", x.get("chunk_index", 0))`. -/
def seqKey (r : Retrieved) : Int := r.sequential_id.getD (Int.ofNat r.chunk_index)

/-- Python `sorted(..., key=seq_id)`: stable ascending. -/
def sortBySeqId (l : List Retrieved) : List Retrieved :=
  List.insertionSort (fun x y => seqKey x ≤ seqKey y) l

/-- `_build_context` in its `"structured"` style (the only style the
strategies modelled here use). -/
def buildContextStructured (chunks : List Retrieved) : String :=
  String.intercalate "\n\n" (chunks.enum.map (fun ic =>
    "[Chunk " ++ toString (ic.2.sequential_id.getD (Int.ofNat ic.1)) ++ "]\n" ++ ic.2.text))

/-- The filter list built by `_qa_generation_strategy` (lines 300-322):
chapter filter over confidence 0.70, section filter over 0.80. -/
def qaFilters (qm : QueryMeta) : List MetaFilter :=
  (if 70 < qm.chapterConf then [MetaFilter.chapterEq qm.chapterValue] else []) ++
    (if 80 < qm.sectionConf then [MetaFilter.sectionEq qm.sectionValue] else [])

/-- The tail of `_qa_generation_strategy` after the similarity search
(lines 336-382): zero results give the terminal error result, otherwise
the hits are sorted by sequential id and cut to `chunks_needed`
(`_get_sequential_chunks` returns `initial_chunks[:target_count]`). -/
def qaContinue (results : List Retrieved) (chunks_needed : Nat) : RetrievalResult :=
  if results.isEmpty then
    errorResult "qa_generation"
      "No content found matching the criteria. Please check chapter/topic specification."
  else
    { status := "success",
      chunks := (sortBySeqId results).take chunks_needed,
      context := buildContextStructured ((sortBySeqId results).take chunks_needed),
      num_chunks := ((sortBySeqId results).take chunks_needed).length,
      strategy := "qa_generation",
      message := "Retrieved " ++ toString ((sortBySeqId results).take chunks_needed).length ++
        " sequential chunks for Q&A generation" }

/-- Model of `_qa_generation_strategy` (lines 277-393). -/
def qa_generation_strategy (embedOutcome : Except String Unit) (store : List Point)
    (rank : Point → Nat) (qm : QueryMeta) (num_questions : Nat)
    (token filename : String) : RetrievalResult :=
  match embedOutcome with
  | .error e => errorResult "qa_generation" ("QA_GENERATION strategy failed: " ++ e)
  | .ok _ =>
    qaContinue
      (searchSimilar store rank token filename (max num_questions 15) none (qaFilters qm))
      (max num_questions 15)

/-- The filter list built by `_notes_strategy` (lines 414-434): chapter
over 0.70, else section over 0.80, else none. -/
def notesFilters (qm : QueryMeta) : List MetaFilter :=
  if 70 < qm.chapterConf then [MetaFilter.chapterEq qm.chapterValue]
  else if 80 < qm.sectionConf then [MetaFilter.sectionEq qm.sectionValue]
  else []

/-- `_group_by_sections`, preserving dict insertion order.  The Python
default `"General"` applies only when the payload metadata lacks the
`section_number` key, which the indexing pipeline never produces; a stored
`None` is itself the group key, so the key type is `Option String`. -/
def groupBySections (chunks : List Retrieved) : List (Option String × List Retrieved) :=
  chunks.foldl (fun acc c =>
    if acc.any (fun kv => kv.1 == c.section_number) then
      acc.map (fun kv => if kv.1 == c.section_number then (kv.1, kv.2 ++ [c]) else kv)
    else acc ++ [(c.section_number, [c])]) []

def eq60 : String := String.mk (List.replicate 60 '=')

/-- Python `f"{section}"` on the group key (`str(None)` is `"None"`). -/
def sectionHeaderStr : Option String → String
  | some s => s
  | none => "None"

/-- `_build_hierarchical_context` (lines 605-615). -/
def buildHierarchicalContext (grouped : List (Option String × List Retrieved)) : String :=
  String.intercalate "\n\n"
    (grouped.foldr (fun kv parts =>
      ("\n" ++ eq60 ++ "\n" ++ sectionHeaderStr kv.1 ++ "\n" ++ eq60) ::
        (kv.2.map (fun c => c.text) ++ parts)) [])

/-- The tail of `_notes_strategy` after retrieval (lines 456-494). -/
def notesContinue (results : List Retrieved) : RetrievalResult :=
  if results.isEmpty then
    errorResult "notes" "No content found for notes generation"
  else
    { status := "success",
      chunks := sortBySeqId results,
      context := buildHierarchicalContext (groupBySections (sortBySeqId results)),
      num_chunks := (sortBySeqId results).length,
      strategy := "notes",
      message := "Retrieved " ++ toString (sortBySeqId results).length ++
        " chunks across " ++ toString (groupBySections (sortBySeqId results)).length ++
        " sections for notes" }

/-- Model of `_notes_strategy` (lines 396-505): with a chapter or section
filter available, every chunk comes from the filter-only lookup called
with `limit=top_k`; only the filterless branch embeds the query. -/
def notes_strategy (embedOutcome : Except String Unit) (store : List Point)
    (rank : Point → Nat) (qm : QueryMeta) (top_k : Nat)
    (token filename : String) : RetrievalResult :=
  if (notesFilters qm).isEmpty then
    match embedOutcome with
    | .error e => errorResult "notes" ("NOTES strategy failed: " ++ e)
    | .ok _ => notesContinue (searchSimilar store rank token filename top_k none [])
  else
    notesContinue (getChunksByFilter store token filename (notesFilters qm) top_k)

/-- Model of `_expand_context` (lines 518-546).  The source loop over
`range(-window_size, window_size + 1)` computes `adjacent_id` but its body
never retrieves or appends anything (the comment in the source says the
expansion is left for production), so the function only marks every input
chunk `is_expanded = True` and returns the inputs. -/
def expand_context (chunks : List Retrieved) (token filename : String)
    (window_size : Nat) : List Retrieved :=
  chunks.map (fun c => { c with is_expanded := true })

/-
HyDE retrieval (`QAGenerationService.hyde_retrieval`,
qa_generation_service.py lines 28-140).  The two embedding calls and the
two searches of the primary path (limits `top_k` and `top_k // 2`), and
the embedding and search of the fallback path, are abstracted as injected
outcomes.
-/

/-- The primary HyDE path: embed the hypothetical passage, search with it,
embed the raw query, search with it; the first raised exception aborts. -/
def hydePrimary (hydeEmbed : Except String Unit) (hydeSearch : Except String (List Retrieved))
    (regEmbed : Except String Unit) (regSearch : Except String (List Retrieved)) :
    Except String (List Retrieved × List Retrieved) :=
  match hydeEmbed with
  | .error e => .error e
  | .ok _ =>
    match hydeSearch with
    | .error e => .error e
    | .ok hs =>
      match regEmbed with
      | .error e => .error e
      | .ok _ =>
        match regSearch with
        | .error e => .error e
        | .ok rs => .ok (hs, rs)

/-- The fallback path inside the `except` block: one query embedding and
one regular search. -/
def hydeFallbackRun (fbEmbed : Except String Unit)
    (fbSearch : Except String (List Retrieved)) : Except String (List Retrieved) :=
  match fbEmbed with
  | .error e => .error e
  | .ok _ => fbSearch

/-- The first 100 characters of the chunk text, the deduplication key. -/
def first100 (s : String) : String := String.mk (s.toList.take 100)

/-- One step of the seen-set deduplication, tagging the kept chunk with its
retrieval method. -/
def addUnique (tag : String) (acc : List Retrieved × List String) (c : Retrieved) :
    List Retrieved × List String :=
  if acc.2.contains (first100 c.text) then acc
  else (acc.1 ++ [{ c with retrieval_method := some tag }], acc.2 ++ [first100 c.text])

/-- Steps 5 of `hyde_retrieval`: HyDE results first, then regular results,
deduplicated by text prefix. -/
def dedupMerge (hyde reg : List Retrieved) : List Retrieved :=
  (reg.foldl (addUnique "Regular") (hyde.foldl (addUnique "HyDE") ([], []))).1

/-- The result dictionary of `hyde_retrieval`; the error branch omits the
`method` key (`none`). -/
structure HydeResult where
  status : String
  chunks : List Retrieved
  num_chunks : Nat
  method : Option String
  message : String

/-- Model of `QAGenerationService.hyde_retrieval`. -/
def hyde_retrieval (hydeEmbed : Except String Unit) (hydeSearch : Except String (List Retrieved))
    (regEmbed : Except String Unit) (regSearch : Except String (List Retrieved))
    (fbEmbed : Except String Unit) (fbSearch : Except String (List Retrieved))
    (top_k : Nat) : HydeResult :=
  match hydePrimary hydeEmbed hydeSearch regEmbed regSearch with
  | .ok pr =>
    { status := "success",
      chunks := (dedupMerge pr.1 pr.2).take top_k,
      num_chunks := ((dedupMerge pr.1 pr.2).take top_k).length,
      method := some "HyDE",
      message := "Retrieved " ++ toString ((dedupMerge pr.1 pr.2).take top_k).length ++
        " chunks using HyDE" }
  | .error e =>
    match hydeFallbackRun fbEmbed fbSearch with
    | .ok fr =>
      { status := "fallback", chunks := fr, num_chunks := fr.length,
        method := some "Regular (HyDE failed)",
        message := "Using fallback retrieval: " ++ e }
    | .error e2 =>
      { status := "error", chunks := [], num_chunks := 0, method := none,
        message := "Both HyDE and fallback failed: " ++ e2 }

/-
Concrete data for the strategy claims.
-/

def mkPoint (i : Nat) (sec : String) : Point :=
  { text := "chunk " ++ toString i, token := "u", filename := "f", chunk_index := i,
    chapter_number := some 1, section_number := some sec,
    sequential_id := some (Int.ofNat i) }

/-- Six indexed points of chapter 1 for user `u`, document `f`. -/
def c3store : List Point :=
  [mkPoint 0 "1.1", mkPoint 1 "1.1", mkPoint 2 "1.1",
   mkPoint 3 "1.2", mkPoint 4 "1.2", mkPoint 5 "1.2"]

/-- Query metadata naming chapter 1 at confidence 0.85. -/
def c3meta : QueryMeta :=
  { chapterValue := some 1, chapterConf := 85, sectionValue := none, sectionConf := 0 }

/-- A store holding only chapter-2 content, for a chapter-1 query. -/
def c5point : Point :=
  { text := "about chapter two", token := "u", filename := "f", chunk_index := 0,
    chapter_number := some 2, section_number := none, sequential_id := some 0 }

def c2chunk : Retrieved :=
  { text := "inertia", score := 800, filename := "f", chunk_index := 5,
    chapter_number := some 1, section_number := some "1.2", sequential_id := some 5,
    is_expanded := false, retrieval_method := none }

def sampleRetrieved : Retrieved :=
  { text := "newton first law", score := 800, filename := "f", chunk_index := 4,
    chapter_number := some 1, section_number := some "1.2", sequential_id := some 4,
    is_expanded := false, retrieval_method := none }

/-
Helper lemmas about the chunker.
-/

theorem length_dropWhileAux_le (p : Char → Bool) (l : List Char) :
    (l.dropWhile p).length ≤ l.length := by
  induction l with
  | nil => simp [List.dropWhile]
  | cons c cs ih =>
    by_cases h : p c
    · simp only [List.dropWhile, h]
      exact Nat.le_succ_of_le ih
    · simp [List.dropWhile, h]

theorem length_pyStrip_le (l : List Char) : (pyStrip l).length ≤ l.length := by
  unfold pyStrip
  calc ((l.dropWhile isPySpace).reverse.dropWhile isPySpace).reverse.length
      = ((l.dropWhile isPySpace).reverse.dropWhile isPySpace).length := by
        simp
    _ ≤ (l.dropWhile isPySpace).reverse.length := length_dropWhileAux_le _ _
    _ = (l.dropWhile isPySpace).length := by simp
    _ ≤ l.length := length_dropWhileAux_le _ _

theorem rfindLoop_le (l sub : List Char) (s : Nat) :
    ∀ i p, rfindLoop l sub s i = some p → p ≤ i := by
  intro i
  induction i with
  | zero =>
    intro p h
    simp only [rfindLoop] at h
    split at h
    · cases h; exact Nat.le_refl 0
    · cases h
  | succ n ih =>
    intro p h
    simp only [rfindLoop] at h
    split at h
    · cases h; exact Nat.le_refl _
    · exact Nat.le_succ_of_le (ih p h)

theorem rfind_bound (l sub : List Char) (s e p : Nat)
    (h : rfind l sub s e = some p) : p + sub.length ≤ e := by
  unfold rfind at h
  split at h
  · next hle =>
    have hp := rfindLoop_le l sub s _ p h
    have h1 : p + sub.length ≤ (min e l.length - sub.length) + sub.length :=
      Nat.add_le_add_right hp _
    have h2 : (min e l.length - sub.length) + sub.length = min e l.length :=
      Nat.sub_add_cancel hle
    rw [h2] at h1
    exact le_trans h1 (Nat.min_le_left _ _)
  · cases h

theorem bestBreakAux_bound (l : List Char) (s e : Nat) :
    ∀ cs best p, (∀ b, best = some b → b + 1 ≤ e ∧ s < b) →
      bestBreakAux l s e cs best = some p → p + 1 ≤ e ∧ s < p := by
  intro cs
  induction cs with
  | nil =>
    intro best p hbest h
    exact hbest p h
  | cons c rest ih =>
    intro best p hbest h
    simp only [bestBreakAux] at h
    cases hfind : rfind l [c] s e with
    | none =>
      rw [hfind] at h
      exact ih best p hbest h
    | some q =>
      rw [hfind] at h
      dsimp only at h
      by_cases hcond : (decide (s < q) && optLtNat best q) = true
      · rw [if_pos hcond] at h
        refine ih _ p ?_ h
        intro b hb
        cases hb
        constructor
        · have hq := rfind_bound l [c] s e q hfind
          simpa using hq
        · exact of_decide_eq_true (Bool.and_elim_left hcond)
      · rw [if_neg hcond] at h
        exact ih best p hbest h

theorem computeEnd_le (l : List Char) (cs start : Nat) :
    computeEnd l cs start ≤ start + cs := by
  unfold computeEnd
  split
  · cases hfind : rfind l ['\n', '\n'] start (start + cs) with
    | none =>
      dsimp only
      cases hbb : bestBreakAux l start (start + cs) sentenceBreakChars none with
      | none => exact Nat.le_refl _
      | some b =>
        exact (bestBreakAux_bound l start (start + cs) sentenceBreakChars none b
          (by intro x hx; cases hx) hbb).1
    | some p =>
      dsimp only
      by_cases hsp : start < p
      · rw [if_pos hsp]
        have := rfind_bound l ['\n', '\n'] start (start + cs) p hfind
        simpa using this
      · rw [if_neg hsp]
        cases hbb : bestBreakAux l start (start + cs) sentenceBreakChars none with
        | none => exact Nat.le_refl _
        | some b =>
          exact (bestBreakAux_bound l start (start + cs) sentenceBreakChars none b
            (by intro x hx; cases hx) hbb).1
  · exact Nat.le_refl _

theorem length_chunk_piece_le (l : List Char) (cs start : Nat) :
    (pyStrip (pySlice l start (computeEnd l cs start))).length ≤ cs := by
  have h1 : (pySlice l start (computeEnd l cs start)).length ≤
      computeEnd l cs start - start := by
    unfold pySlice
    rw [List.length_take]
    exact Nat.min_le_left _ _
  have h2 : computeEnd l cs start - start ≤ cs := by
    have := computeEnd_le l cs start
    omega
  exact le_trans (le_trans (length_pyStrip_le _) h1) h2

theorem chunkLoop_bounded (l : List Char) (cs co : Nat) :
    ∀ fuel start acc res, (∀ c ∈ acc, c ≠ [] ∧ c.length ≤ cs) →
      chunkLoop l cs co fuel start acc = some res →
      ∀ c ∈ res, c ≠ [] ∧ c.length ≤ cs := by
  intro fuel
  induction fuel with
  | zero =>
    intro start acc res _ h
    cases h
  | succ n ih =>
    intro start acc res hacc h
    simp only [chunkLoop] at h
    split at h
    · refine ih _ _ res ?_ h
      intro c hc
      revert hc
      split
      · exact fun hc => hacc c hc
      · next hne =>
        intro hc
        rcases List.mem_append.mp hc with hc | hc
        · exact hacc c hc
        · have hceq : c = pyStrip (pySlice l start (computeEnd l cs start)) := by
            simpa using hc
          subst hceq
          constructor
          · intro habs
            rw [habs] at hne
            simp at hne
          · exact length_chunk_piece_le l cs start
    · cases h
      exact hacc

/-
Claim theorems for the chunker (C1, C9, C10).
-/

/-- C10: whenever `chunk_text` returns (for any fuel), every returned chunk
is a non-empty string of length at most `chunk_size`. -/
theorem chunkText_chunks_nonempty_and_bounded (fuel : Nat) (text : List Char)
    (cs co : Nat) (res : List (List Char)) (hcs : 1 ≤ cs)
    (hres : chunk_text fuel text cs co = some res) :
    ∀ c ∈ res, c ≠ [] ∧ c.length ≤ cs := by
  unfold chunk_text at hres
  split at hres
  · cases hres
    intro c hc
    cases hc
  · next hempty =>
    split at hres
    · next hlen =>
      cases hres
      intro c hc
      have hceq : c = pyStrip text := by simpa using hc
      subst hceq
      constructor
      · intro habs
        rw [habs] at hempty
        simp at hempty
      · exact hlen
    · exact chunkLoop_bounded (pyStrip text) cs co fuel 0 [] res
        (by intro c hc; cases hc) hres

/-- C10 witness: concrete run on `"ab.cd"` with `chunk_size = 3`,
`chunk_overlap = 1`; the chunk `"d"` of the result is non-empty and short. -/
theorem chunkText_chunks_nonempty_and_bounded_witness :
    (['d'] : List Char) ≠ [] ∧ (['d'] : List Char).length ≤ 3 :=
  chunkText_chunks_nonempty_and_bounded 10 ['a', 'b', '.', 'c', 'd'] 3 1
    [['a', 'b', '.'], ['.', 'c', 'd'], ['d']] (by decide) (by decide)
    ['d'] (by decide)

/-- C9 counterexample: the claim says `chunk_text` returns exactly
`[text]` whenever `len(text) ≤ chunk_size`, but the code strips the text
first: on `" a"` (length 2 ≤ 1000) it returns `["a"]`, not `[" a"]`. -/
theorem chunkText_strip_counterexample :
    chunk_text 1 [' ', 'a'] 1000 200 ≠ some [[' ', 'a']] := by decide

/-- C9 (amended): for every text whose strip is non-empty, if
`len(text) ≤ chunk_size` then `chunk_text` returns exactly the one-element
list containing the stripped text. -/
theorem chunkText_small_text_single_chunk (fuel : Nat) (text : List Char)
    (cs co : Nat) (hne : pyStrip text ≠ []) (hlen : text.length ≤ cs) :
    chunk_text fuel text cs co = some [pyStrip text] := by
  unfold chunk_text
  have h1 : (pyStrip text).isEmpty = false := by
    cases h : pyStrip text with
    | nil => exact absurd h hne
    | cons c cs2 => simp [h]
  rw [h1]
  have h2 : (pyStrip text).length ≤ cs := le_trans (length_pyStrip_le text) hlen
  simp [h2]

/-- C9 witness: `chunk_text` on `" ab"` with `chunk_size = 10` returns the
single stripped chunk `"ab"`. -/
theorem chunkText_small_text_single_chunk_witness :
    chunk_text 1 [' ', 'a', 'b'] 10 0 = some [['a', 'b']] :=
  chunkText_small_text_single_chunk 1 [' ', 'a', 'b'] 10 0 (by decide) (by decide)

/-- Helper for C1: on `failC1text` with `chunk_size = 10` and
`chunk_overlap = 5` the loop state recurs with `start = 0` forever, so no
amount of fuel finishes the loop. -/
theorem chunkLoop_stuck : ∀ fuel acc, chunkLoop failC1text 10 5 fuel 0 acc = none := by
  intro fuel
  induction fuel with
  | zero => intro acc; rfl
  | succ n ih =>
    intro acc
    have h : chunkLoop failC1text 10 5 (n + 1) 0 acc =
        chunkLoop failC1text 10 5 n 0 (acc ++ [['a', '.']]) := rfl
    rw [h]
    exact ih (acc ++ [['a', '.']])

/-- C1: the claim (and the source comment "Ensure we make progress") says
the loop always advances, but on `"a." ++ "b" * 20` with
`chunk_size = 10 > chunk_overlap = 5` the sentence break sets `end = 2` and
`start = end - overlap` falls back to `0`: the loop never terminates (the
fuel-indexed model returns `none` for every fuel). -/
theorem chunkText_nonterminating (fuel : Nat) :
    chunk_text fuel failC1text 10 5 = none := by
  have h : chunk_text fuel failC1text 10 5 = chunkLoop failC1text 10 5 fuel 0 [] := rfl
  rw [h]
  exact chunkLoop_stuck fuel []

/-
Claim theorems for the classifier (C4).
-/

/-- C4 counterexample: the claim says
`classify("What is gravity?")` has confidence 0.5, but the chat keyword
`"what is"` matches, so the keyword pass yields confidence
`min(0.6 + 0.15, 1.0) = 0.75` (and no regex override fires). -/
theorem classify_confidence_counterexample :
    (classify_query "What is gravity?").use_case = UseCase.chat ∧
    (classify_query "What is gravity?").confidence ≠ 50 := by decide

/-- C4 (amended): the classifier is deterministic on the three fixed
inputs; the first two behave as claimed (qa_generation at 0.95 via the
`N questions` regex, evaluation at 0.90 via the `my answer is` regex), and
the third returns chat at confidence 0.75 (one chat keyword match), not
0.5. -/
theorem classifier_three_fixed_inputs :
    (classify_query "Generate 10 questions about gravity").use_case = UseCase.qa_generation ∧
    (classify_query "Generate 10 questions about gravity").confidence = 95 ∧
    (classify_query "My answer is photosynthesis converts light to energy").use_case = UseCase.evaluation ∧
    (classify_query "My answer is photosynthesis converts light to energy").confidence = 90 ∧
    (classify_query "What is gravity?").use_case = UseCase.chat ∧
    (classify_query "What is gravity?").confidence = 75 := by decide

/-
Helper lemmas and claim theorems for chapter propagation (C7).
-/

theorem getD_append_add {α : Type} (xs ys : List α) (n : Nat) (d : α) :
    (xs ++ ys).getD (xs.length + n) d = ys.getD n d := by
  induction xs with
  | nil => simp
  | cons x xs ih =>
    have h : (x :: xs).length + n = (xs.length + n) + 1 := by
      simp only [List.length_cons]
      omega
    rw [h]
    simpa using ih

theorem propagateAux_length (l : List ChunkMeta) :
    ∀ a b c d, (propagateAux a b c d l).length = l.length := by
  induction l with
  | nil => intro a b c d; rfl
  | cons m rest ih =>
    intro a b c d
    simp only [propagateAux, List.length_cons]
    rw [ih]

/-- The chapter-number component of the propagation state after a list of
chunks; the other three state components do not influence it. -/
def chapNumState (cur : Option Int) : List ChunkMeta → Option Int
  | [] => cur
  | m :: rest => chapNumState (nextChapNum cur m) rest

theorem propagateAux_append (l1 : List ChunkMeta) :
    ∀ (a : Option Int) (b c d : Option String) (l2 : List ChunkMeta),
      ∃ b2 c2 d2, propagateAux a b c d (l1 ++ l2) =
        propagateAux a b c d l1 ++ propagateAux (chapNumState a l1) b2 c2 d2 l2 := by
  induction l1 with
  | nil =>
    intro a b c d l2
    exact ⟨b, c, d, by simp [propagateAux, chapNumState]⟩
  | cons m rest ih =>
    intro a b c d l2
    simp only [List.cons_append, propagateAux, chapNumState]
    obtain ⟨b2, c2, d2, hsplit⟩ := ih (nextChapNum a m) (nextChapTitle b m)
      (nextSecNum c (chapterUpdate a b m)) (nextSecTitle d (chapterUpdate a b m)) l2
    exact ⟨b2, c2, d2, by rw [List.append_eq, hsplit]⟩

theorem chapter_of_section_update (curS curST : Option String) (m1 : ChunkMeta) :
    (sectionUpdate curS curST m1).chapter_number = m1.chapter_number := by
  unfold sectionUpdate
  split
  · rfl
  · split
    · rfl
    · rfl

theorem propagateAux_keeps_current (curC : Option Int) (hcur : truthyInt curC = true) :
    ∀ (l : List ChunkMeta) (b c d : Option String) (j : Nat), j < l.length →
      (∀ k, k ≤ j → truthyInt ((l.getD k defaultMeta).chapter_number) = false) →
      ((propagateAux curC b c d l).getD j defaultMeta).chapter_number = curC := by
  intro l
  induction l with
  | nil =>
    intro b c d j hj _
    simp at hj
  | cons m rest ih =>
    intro b c d j hj hall
    have hm : truthyInt m.chapter_number = false := hall 0 (Nat.zero_le j)
    have hupd : chapterUpdate curC b m = { m with chapter_number := curC, chapter_title := b } := by
      unfold chapterUpdate
      rw [hm]
      simp [hcur]
    have hnext : nextChapNum curC m = curC := by
      unfold nextChapNum
      rw [hm]
      simp
    cases j with
    | zero =>
      simp only [propagateAux, List.getD_cons_zero]
      rw [chapter_of_section_update, hupd]
    | succ n =>
      simp only [propagateAux, List.getD_cons_succ]
      rw [hnext]
      refine ih _ _ _ n (by simpa using hj) ?_
      intro k hk
      have := hall (k + 1) (Nat.succ_le_succ hk)
      simpa using this

/-- C7 counterexample: the claim quantifies over every non-null chapter
number, but the code tests Python truthiness, so chapter number `0` is
never treated as current: the chunk after a `chapter 0` chunk stays
without a chapter. -/
theorem propagate_chapter_zero_counterexample :
    chapAt [⟨some 0, some "Zero", none, none⟩, defaultMeta] 0 = some 0 ∧
    (([⟨some 0, some "Zero", none, none⟩, defaultMeta] : List ChunkMeta).getD 1
        defaultMeta).chapter_number = none ∧
    chapAt (propagate_chapter_metadata
      [⟨some 0, some "Zero", none, none⟩, defaultMeta]) 1 ≠ some 0 := by decide

/-- C7 (amended): after `propagate_chapter_metadata`, for every index `i`
whose chunk carries a non-null, non-zero chapter number `c`, every later
chunk up to (and excluding) the next chunk with a truthy chapter of its own
carries `some c`.  (Non-zero is forced by the Python truthiness test; see
the counterexample.) -/
theorem propagate_inherits_chapter (l1 l2 : List ChunkMeta) (m : ChunkMeta) (c : Int)
    (hm : m.chapter_number = some c) (hc : c ≠ 0)
    (j : Nat) (hj : j < l2.length)
    (hbetween : ∀ k, k ≤ j → truthyInt ((l2.getD k defaultMeta).chapter_number) = false) :
    chapAt (propagate_chapter_metadata (l1 ++ m :: l2)) (l1.length + 1 + j) = some c := by
  have htr : truthyInt m.chapter_number = true := by
    rw [hm]
    simpa [truthyInt] using hc
  obtain ⟨b2, c2, d2, hsplit⟩ := propagateAux_append l1 none none none none (m :: l2)
  unfold propagate_chapter_metadata chapAt
  rw [hsplit]
  have hlen : (propagateAux none none none none l1).length = l1.length :=
    propagateAux_length l1 none none none none
  have hidx : l1.length + 1 + j = (propagateAux none none none none l1).length + (j + 1) := by
    rw [hlen]
    omega
  rw [hidx, getD_append_add]
  simp only [propagateAux, List.getD_cons_succ]
  have h1 : nextChapNum (chapNumState none l1) m = some c := by
    unfold nextChapNum
    rw [htr, if_pos rfl, hm]
  rw [h1]
  exact propagateAux_keeps_current (some c) (by simpa [truthyInt] using hc) l2 _ _ _ j hj hbetween

/-- C7 witness: a chunk declaring chapter 3 followed by a chapter-less
chunk; after propagation the second chunk carries chapter 3. -/
theorem propagate_inherits_chapter_witness :
    chapAt (propagate_chapter_metadata
      [⟨some 3, some "T", none, none⟩, defaultMeta]) 1 = some 3 :=
  propagate_inherits_chapter [] [defaultMeta] ⟨some 3, some "T", none, none⟩ 3 rfl
    (by decide) 0 (by decide)
    (by
      intro k hk
      have hk0 : k = 0 := Nat.le_zero.mp hk
      subst hk0
      rfl)

/-
Helper lemmas and claim theorems for the reranker (C8).
-/

theorem selectDiverse_subset (k : Nat) :
    ∀ (l acc : List SChunk) (x : SChunk), x ∈ selectDiverse k acc l → x ∈ acc ∨ x ∈ l := by
  intro l
  induction l with
  | nil =>
    intro acc x hx
    exact Or.inl hx
  | cons c rest ih =>
    intro acc x hx
    simp only [selectDiverse] at hx
    split at hx
    · exact Or.inl hx
    · split at hx
      · rcases ih (acc ++ [c]) x hx with h | h
        · rcases List.mem_append.mp h with h | h
          · exact Or.inl h
          · right
            simp only [List.mem_singleton] at h
            simp [h]
        · right
          exact List.mem_cons_of_mem c h
      · rcases ih acc x hx with h | h
        · exact Or.inl h
        · right
          exact List.mem_cons_of_mem c h

theorem mem_drop_append_last {α : Type} (a : α) :
    ∀ (l : List α) (n : Nat), n ≤ l.length → a ∈ (l ++ [a]).drop n := by
  intro l
  induction l with
  | nil =>
    intro n hn
    have h0 : n = 0 := Nat.le_zero.mp (by simpa using hn)
    subst h0
    simp
  | cons x xs ih =>
    intro n hn
    cases n with
    | zero => simp
    | succ m =>
      have hm : m ≤ xs.length := by simpa using hn
      simpa using ih m hm

theorem mem_last3_append (acc : List SChunk) (a : SChunk) : a ∈ last3 (acc ++ [a]) := by
  unfold last3
  exact mem_drop_append_last a acc _ (by simp)

theorem isDiverse_false_of_mem (cand s : SChunk) (acc : List SChunk)
    (hs : s ∈ last3 acc) (h : overlapTooHigh cand s = true) :
    isDiverse cand acc = false := by
  unfold isDiverse
  cases hall : (last3 acc).all (fun x => !overlapTooHigh cand x) with
  | false => rfl
  | true =>
    exfalso
    have := List.all_eq_true.mp hall s hs
    rw [h] at this
    simp at this

theorem selectDiverse_reject (k : Nat) (a b : SChunk) (post : List SChunk)
    (hab : a ≠ b) (hapost : a ∉ post) (hbpost : b ∉ post)
    (hover : overlapTooHigh b a = true) :
    ∀ (pre acc : List SChunk), a ∉ acc → b ∉ acc → a ∉ pre → b ∉ pre →
      a ∈ selectDiverse k acc (pre ++ a :: b :: post) →
      b ∉ selectDiverse k acc (pre ++ a :: b :: post) := by
  intro pre
  induction pre with
  | nil =>
    intro acc ha hb _ _ hain hbin
    simp only [List.nil_append, selectDiverse] at hain hbin
    by_cases hk : k ≤ acc.length
    · rw [if_pos hk] at hain
      exact ha hain
    · rw [if_neg hk] at hain hbin
      by_cases hdiv : isDiverse a acc = true
      · rw [if_pos hdiv] at hain hbin
        by_cases hk2 : k ≤ (acc ++ [a]).length
        · rw [if_pos hk2] at hbin
          rcases List.mem_append.mp hbin with h | h
          · exact hb h
          · exact hab ((List.mem_singleton.mp h).symm)
        · rw [if_neg hk2] at hbin
          have hfalse : isDiverse b (acc ++ [a]) = false :=
            isDiverse_false_of_mem b a (acc ++ [a]) (mem_last3_append acc a) hover
          rw [hfalse] at hbin
          simp only [Bool.false_eq_true, if_false] at hbin
          rcases selectDiverse_subset k post (acc ++ [a]) b hbin with h | h
          · rcases List.mem_append.mp h with h | h
            · exact hb h
            · exact hab ((List.mem_singleton.mp h).symm)
          · exact hbpost h
      · rw [if_neg hdiv] at hain
        rcases selectDiverse_subset k (b :: post) acc a hain with h | h
        · exact ha h
        · rcases List.mem_cons.mp h with h | h
          · exact hab h
          · exact hapost h
  | cons p pre2 ih =>
    intro acc ha hb hapre hbpre hain hbin
    have hap : a ≠ p := by
      intro h
      exact hapre (by simp [h])
    have hbp : b ≠ p := by
      intro h
      exact hbpre (by simp [h])
    have hapre2 : a ∉ pre2 := fun h => hapre (List.mem_cons_of_mem p h)
    have hbpre2 : b ∉ pre2 := fun h => hbpre (List.mem_cons_of_mem p h)
    simp only [List.cons_append, selectDiverse] at hain hbin
    by_cases hk : k ≤ acc.length
    · rw [if_pos hk] at hain
      exact ha hain
    · rw [if_neg hk] at hain hbin
      by_cases hdiv : isDiverse p acc = true
      · rw [if_pos hdiv] at hain hbin
        have ha2 : a ∉ acc ++ [p] := by
          intro h
          rcases List.mem_append.mp h with h | h
          · exact ha h
          · exact hap (by simpa using h)
        have hb2 : b ∉ acc ++ [p] := by
          intro h
          rcases List.mem_append.mp h with h | h
          · exact hb h
          · exact hbp (by simpa using h)
        exact ih (acc ++ [p]) ha2 hb2 hapre2 hbpre2 hain hbin
      · rw [if_neg hdiv] at hain hbin
        exact ih acc ha hb hapre2 hbpre2 hain hbin

/-- C8 counterexample: the near-duplicates `cA` and `cA2` (their first 200
characters share 4 of 5 words, over 70% in both directions) are separated
by three accepted chunks in composite order, so the 3-window diversity
check never compares them and both survive `rerank_chunks`: the claim
"at most one of them in the output" fails. -/
theorem rerank_window_keeps_both :
    overlapTooHigh (scoreChunk cA2) (scoreChunk cA) = true ∧
    overlapTooHigh (scoreChunk cA) (scoreChunk cA2) = true ∧
    scoreChunk cA ∈ rerank_chunks [cA, cB1, cB2, cB3, cA2] 15 ∧
    scoreChunk cA2 ∈ rerank_chunks [cA, cB1, cB2, cB3, cA2] 15 := by decide

/-- C8 (amended): the overlap check is performed only against the last 3
already-accepted chunks, so two overlapping chunks can both be kept when
3 or more chunks are accepted between them; when they are adjacent in the
stable descending composite order and the higher one is in the output, the
lower one is rejected — at most one of the two is kept, and it is the one
with the higher (here: not lower) composite score. -/
theorem rerank_adjacent_duplicate_rejected (chunks : List RChunk) (top_k : Nat)
    (pre post : List SChunk) (a b : SChunk)
    (hsort : sortScored (chunks.map scoreChunk) = pre ++ a :: b :: post)
    (hab : a ≠ b) (hapre : a ∉ pre) (hbpre : b ∉ pre)
    (hapost : a ∉ post) (hbpost : b ∉ post)
    (hover : overlapTooHigh b a = true)
    (hain : a ∈ rerank_chunks chunks top_k) :
    b ∉ rerank_chunks chunks top_k ∧ b.composite_score ≤ a.composite_score := by
  have heq : rerank_chunks chunks top_k = selectDiverse top_k [] (pre ++ a :: b :: post) := by
    unfold rerank_chunks
    rw [hsort]
  constructor
  · rw [heq]
    rw [heq] at hain
    exact selectDiverse_reject top_k a b post hab hapost hbpost hover pre []
      (by simp) (by simp) hapre hbpre hain
  · have hs : List.Pairwise rDesc (pre ++ a :: b :: post) := by
      have h0 := List.sorted_insertionSort rDesc (chunks.map scoreChunk)
      rw [show List.insertionSort rDesc (chunks.map scoreChunk) =
        sortScored (chunks.map scoreChunk) from rfl, hsort] at h0
      exact h0
    have hsub : List.Pairwise rDesc (a :: b :: post) :=
      List.Pairwise.sublist (List.sublist_append_right pre (a :: b :: post)) hs
    exact (List.pairwise_cons.mp hsub).1 b (by simp)

/-- C8 witness: with only the two near-duplicates as candidates they are
adjacent in composite order, the higher one is kept and the lower one is
rejected. -/
theorem rerank_adjacent_duplicate_rejected_witness :
    scoreChunk cA2 ∉ rerank_chunks [cA, cA2] 15 ∧
    (scoreChunk cA2).composite_score ≤ (scoreChunk cA).composite_score :=
  rerank_adjacent_duplicate_rejected [cA, cA2] 15 [] [] (scoreChunk cA) (scoreChunk cA2)
    (by decide) (by decide) (by decide) (by decide) (by decide) (by decide)
    (by decide) (by decide)

/-
Claim theorems for the strategies (C2, C3, C5, C6).
-/

/-- C2: the claim (and the docstring of `_expand_context`) says every hit
is expanded with its sequential neighbors at distance up to 2, but the
function is a stub: on a chunk with `sequential_id = 5` and
`window_size = 2` it returns exactly the input chunk marked
`is_expanded = True` — no chunk with sequential id 3, 4, 6 or 7 is added. -/
theorem expandContext_adds_no_neighbors :
    expand_context [c2chunk] "u" "f" 2 = [{ c2chunk with is_expanded := true }] ∧
    (expand_context [c2chunk] "u" "f" 2).length = 1 :=
  ⟨rfl, rfl⟩

/-- C3: the claim (and the docstring of `_notes_strategy`) says all chunks
matching the chapter filter are retrieved, but the filter-only lookup is
called with `limit=top_k`: with 6 matching chunks and the default
`top_k = 5` the result holds only 5 chunks. -/
theorem notesStrategy_truncates_to_top_k :
    (eligiblePoints c3store "u" "f" [MetaFilter.chapterEq (some 1)]).length = 6 ∧
    (notes_strategy (Except.ok ()) c3store (fun _ => 0) c3meta 5 "u" "f").status = "success" ∧
    (notes_strategy (Except.ok ()) c3store (fun _ => 0) c3meta 5 "u" "f").num_chunks = 5 := by
  refine ⟨by decide, ?_, ?_⟩ <;> rfl

/-- C5: whenever the chapter filter is active (confidence above 0.70) and
no stored point in scope matches it, the qa_generation strategy returns
status `"error"` with an empty chunk list; the model is a total function,
so no exception reaches the caller (a collaborator exception, injected as
`Except.error`, also lands in the error result). -/
theorem qaGeneration_zero_match_error (embedOutcome : Except String Unit)
    (store : List Point) (rank : Point → Nat) (qm : QueryMeta) (n : Nat)
    (token filename : String)
    (hconf : 70 < qm.chapterConf)
    (hzero : ∀ p ∈ store, scopeMatch p token filename = true →
      matchesFilter p (MetaFilter.chapterEq qm.chapterValue) = false) :
    (qa_generation_strategy embedOutcome store rank qm n token filename).status = "error" ∧
    (qa_generation_strategy embedOutcome store rank qm n token filename).chunks = [] := by
  cases embedOutcome with
  | error e => exact ⟨rfl, rfl⟩
  | ok u =>
    have hfilters : qaFilters qm = MetaFilter.chapterEq qm.chapterValue ::
        (if 80 < qm.sectionConf then [MetaFilter.sectionEq qm.sectionValue] else []) := by
      unfold qaFilters
      rw [if_pos hconf]
      rfl
    have hempty : eligiblePoints store token filename (qaFilters qm) = [] := by
      unfold eligiblePoints
      rw [List.filter_eq_nil_iff]
      intro p hp
      rw [hfilters]
      cases hsc : scopeMatch p token filename with
      | false => simp
      | true =>
        have hm := hzero p hp hsc
        simp [hm]
    have hs : searchSimilar store rank token filename (max n 15) none (qaFilters qm) = [] := by
      unfold searchSimilar
      rw [hempty]
      simp [sortByRankDesc]
    show (qaContinue (searchSimilar store rank token filename (max n 15) none
      (qaFilters qm)) (max n 15)).status = "error" ∧
      (qaContinue (searchSimilar store rank token filename (max n 15) none
        (qaFilters qm)) (max n 15)).chunks = []
    rw [hs]
    exact ⟨rfl, rfl⟩

/-- C5 witness: a store holding only chapter-2 content, a chapter-1 query
at confidence 0.85: the strategy returns the error result with no
chunks. -/
theorem qaGeneration_zero_match_error_witness :
    (qa_generation_strategy (Except.ok ()) [c5point] (fun _ => 0) c3meta 25 "u" "f").status = "error" ∧
    (qa_generation_strategy (Except.ok ()) [c5point] (fun _ => 0) c3meta 25 "u" "f").chunks = [] :=
  qaGeneration_zero_match_error (Except.ok ()) [c5point] (fun _ => 0) c3meta 25 "u" "f"
    (by decide) (by decide)

/-- C6: if any step of the primary HyDE path raises, the function runs the
single fallback regular-query search; when that succeeds the result is its
chunks under the non-error status `"fallback"`, and the result is
`"error"` (with an empty chunk list) exactly when the fallback also
raises. -/
theorem hydeRetrieval_fallback_behavior
    (a : Except String Unit) (b : Except String (List Retrieved))
    (c : Except String Unit) (d : Except String (List Retrieved))
    (fe : Except String Unit) (fs : Except String (List Retrieved))
    (k : Nat) (e : String)
    (hfail : hydePrimary a b c d = Except.error e) :
    (∀ fr, hydeFallbackRun fe fs = Except.ok fr →
      (hyde_retrieval a b c d fe fs k).status = "fallback" ∧
      (hyde_retrieval a b c d fe fs k).chunks = fr ∧
      (hyde_retrieval a b c d fe fs k).status ≠ "error") ∧
    (∀ e2, hydeFallbackRun fe fs = Except.error e2 →
      (hyde_retrieval a b c d fe fs k).status = "error" ∧
      (hyde_retrieval a b c d fe fs k).chunks = []) := by
  constructor
  · intro fr hfr
    unfold hyde_retrieval
    rw [hfail, hfr]
    exact ⟨rfl, rfl, fun h => absurd h (by decide : ¬("fallback" = "error"))⟩
  · intro e2 he2
    unfold hyde_retrieval
    rw [hfail, he2]
    exact ⟨rfl, rfl⟩

/-- C6 witness: the hypothetical-passage embedding raises; the fallback
search succeeds with one chunk, which is returned under status
`"fallback"`. -/
theorem hydeRetrieval_fallback_behavior_witness :
    (hyde_retrieval (Except.error "quota") (Except.ok []) (Except.ok ()) (Except.ok [])
      (Except.ok ()) (Except.ok [sampleRetrieved]) 10).status = "fallback" ∧
    (hyde_retrieval (Except.error "quota") (Except.ok []) (Except.ok ()) (Except.ok [])
      (Except.ok ()) (Except.ok [sampleRetrieved]) 10).chunks = [sampleRetrieved] ∧
    (hyde_retrieval (Except.error "quota") (Except.ok []) (Except.ok ()) (Except.ok [])
      (Except.ok ()) (Except.ok [sampleRetrieved]) 10).status ≠ "error" :=
  (hydeRetrieval_fallback_behavior (Except.error "quota") (Except.ok []) (Except.ok ())
    (Except.ok []) (Except.ok ()) (Except.ok [sampleRetrieved]) 10 "quota" rfl).1
    [sampleRetrieved] rfl

end LuminaIQ
